import Mathlib

/-
Verification development for the ChessGame repository (src/ChessEngine.py).

The engine is shallowly embedded: the mutable GameState object becomes an
explicit record threaded through every operation, Python lists become Lean
lists, and the two-character piece strings ("wK", "bp", "--") become Lean
strings.  Python list indexing (including negative-index wrap-around) is
modelled by pyIdx?/pyGet?; an index Python would raise IndexError on yields
none at the pyGet? level, and the total wrappers used inside the translated
code fall back to a default on exactly those paths (no path exercised by a
theorem below hits such a fallback except where the theorem is precisely
about the indexing behaviour).
-/

set_option maxRecDepth 200000

namespace ChessEngine

abbrev Cell := String

abbrev Board := List (List Cell)

/-- Python tuples (row, col, dirRow, dirCol) used for pin and check entries. -/
abbrev Entry := Int × Int × Int × Int

def emptyCell : Cell := "--"

def whiteKingPiece : Cell := "wK"

def blackKingPiece : Cell := "bK"

def bareKingStr : Cell := "K"

/-- Python list index normalisation: a nonnegative index in range is itself;
a negative index i with -len <= i < 0 denotes len + i; anything else is an
IndexError, modelled as none. -/
def pyIdx? (len : Nat) (i : Int) : Option Nat :=
  if 0 ≤ i then (if i < (len : Int) then some i.toNat else none)
  else (if -i ≤ (len : Int) then some (len - (-i).toNat) else none)

/-- Python list read; none models IndexError. -/
def pyGet? (l : List α) (i : Int) : Option α :=
  (pyIdx? l.length i).bind fun n => l.get? n

/-- Total wrapper around pyGet? with a default for the IndexError case. -/
def pyGetD (l : List α) (i : Int) (d : α) : α := (pyGet? l i).getD d

/-- Python list element assignment; the IndexError case is a no-op here. -/
def pySet (l : List α) (i : Int) (a : α) : List α :=
  match pyIdx? l.length i with
  | some n => l.set n a
  | none => l

/-- board[r][c] as read by the Python source. -/
def boardGet (b : Board) (r c : Int) : Cell := pyGetD (pyGetD b r []) c emptyCell

/-- board[r][c] = v as written by the Python source. -/
def boardSet (b : Board) (r c : Int) (v : Cell) : Board :=
  match pyIdx? b.length r with
  | some n => b.set n (pySet ((b.get? n).getD []) c v)
  | none => b

/-- s[i] for a Python string (always in range in the source). -/
def pyStrGet (s : String) (i : Nat) : Char := s.toList.getD i ' '

/-- Move value object: start/end coordinates, the pieces read off the board at
construction time, and the coordinate-derived identity used by __eq__. -/
structure Move where
  startRow : Int
  startCol : Int
  endRow : Int
  endCol : Int
  pieceMoved : Cell
  pieceCaptured : Cell
  moveID : Int
deriving DecidableEq

/-- Move.__init__(startSq, endSq, board). -/
def mkMove (startSq endSq : Int × Int) (board : Board) : Move :=
  { startRow := startSq.1
    startCol := startSq.2
    endRow := endSq.1
    endCol := endSq.2
    pieceMoved := boardGet board startSq.1 startSq.2
    pieceCaptured := boardGet board endSq.1 endSq.2
    moveID := endSq.1 * 1000 + endSq.2 * 100 + startSq.1 * 10 + startSq.2 }

/-- The mutable GameState object of the source, as an explicit record. -/
structure GameState where
  board : Board
  whiteToMove : Bool
  moveLog : List Move
  whiteKingLocation : Int × Int
  blackKingLocation : Int × Int
  inCheck : Bool
  pins : List Entry
  checks : List Entry
deriving DecidableEq

/-- GameState.__init__. -/
def initialGameState : GameState :=
  { board :=
      [ ["bR", "bN", "bB", "bQ", "bK", "bB", "bN", "bR"],
        ["bp", "bp", "bp", "bp", "bp", "bp", "bp", "bp"],
        ["--", "--", "--", "--", "--", "--", "--", "--"],
        ["--", "--", "--", "--", "--", "--", "--", "--"],
        ["--", "--", "--", "--", "--", "--", "--", "--"],
        ["--", "--", "--", "--", "--", "--", "--", "--"],
        ["wp", "wp", "wp", "wp", "wp", "wp", "wp", "wp"],
        ["wR", "wN", "wB", "wQ", "wK", "wB", "wN", "wR"] ]
    whiteToMove := true
    moveLog := []
    whiteKingLocation := (7, 4)
    blackKingLocation := (0, 4)
    inCheck := false
    pins := []
    checks := [] }

/-- GameState.makeMove. -/
def makeMove (s : GameState) (m : Move) : GameState :=
  let b1 := boardSet s.board m.startRow m.startCol emptyCell
  let b2 := boardSet b1 m.endRow m.endCol m.pieceMoved
  let base := { s with board := b2, moveLog := s.moveLog ++ [m], whiteToMove := !s.whiteToMove }
  if m.pieceMoved = whiteKingPiece then
    { base with whiteKingLocation := (m.endRow, m.endCol) }
  else if m.pieceMoved = blackKingPiece then
    { base with blackKingLocation := (m.endRow, m.endCol) }
  else base

/-- GameState.undoMove; the length test of the source is the getLast? match
(moveLog is nonempty iff its last element exists). -/
def undoMove (s : GameState) : GameState :=
  match s.moveLog.getLast? with
  | some m =>
    let b1 := boardSet s.board m.startRow m.startCol m.pieceMoved
    let b2 := boardSet b1 m.endRow m.endCol m.pieceCaptured
    let base :=
      { s with board := b2, moveLog := s.moveLog.dropLast, whiteToMove := !s.whiteToMove }
    if m.pieceMoved = whiteKingPiece then
      { base with whiteKingLocation := (m.startRow, m.startCol) }
    else if m.pieceMoved = blackKingPiece then
      { base with blackKingLocation := (m.startRow, m.startCol) }
    else base
  | none => s

/-- The 8 king-centred ray directions, in the source's order (index j). -/
def directionsList : List (Int × Int) :=
  [(-1, 0), (0, -1), (1, 0), (0, 1), (-1, -1), (-1, 1), (1, -1), (1, 1)]

/-- The 8 knight offsets, in the source's order. -/
def knightMovesList : List (Int × Int) :=
  [(-2, -1), (-2, 1), (-1, -2), (-1, 2), (1, -2), (1, 2), (2, -1), (2, 1)]

/-- One direction of the ray scan of checksForPinsAndChecks.  The fuel
argument (8 - i at the call) makes the i = 1..7 loop structurally recursive;
returning the pair is the loop's break.  Note the source's two quirks are
kept: the ally test compares the whole two-character cell against "K" (which
is never equal), and when a qualifying enemy piece is found while a pin
candidate is pending the source neither records a pin nor breaks. -/
def rayScanAux (board : Board) (allyColor enemyColor : Char) (startRow startCol : Int)
    (j : Nat) (d0 d1 : Int) :
    Nat → Nat → Option Entry → Bool → List Entry → Bool × List Entry
  | 0, _, _, inCheck, checks => (inCheck, checks)
  | fuel + 1, i, possiblePin, inCheck, checks =>
    let endRow := startRow + d0 * (i : Int)
    let endCol := startCol + d1 * (i : Int)
    if 0 ≤ endRow ∧ endRow < 8 ∧ 0 ≤ endCol ∧ endCol < 8 then
      let endPiece := boardGet board endRow endCol
      if pyStrGet endPiece 0 = allyColor ∧ endPiece ≠ bareKingStr then
        match possiblePin with
        | none =>
          rayScanAux board allyColor enemyColor startRow startCol j d0 d1 fuel (i + 1)
            (some (endRow, endCol, d0, d1)) inCheck checks
        | some _ => (inCheck, checks)
      else if pyStrGet endPiece 0 = enemyColor then
        let typePiece := pyStrGet endPiece 1
        if (0 ≤ j ∧ j ≤ 3 ∧ typePiece = 'R') ∨
            (4 ≤ j ∧ j ≤ 7 ∧ typePiece = 'B') ∨
            (i = 1 ∧ typePiece = 'p' ∧
              ((enemyColor = 'w' ∧ 6 ≤ j ∧ j ≤ 7) ∨ (enemyColor = 'b' ∧ 4 ≤ j ∧ j ≤ 5))) ∨
            (typePiece = 'Q') ∨ (i = 1 ∧ typePiece = 'K') then
          match possiblePin with
          | none => (true, checks ++ [(endRow, endCol, d0, d1)])
          | some _ =>
            rayScanAux board allyColor enemyColor startRow startCol j d0 d1 fuel (i + 1)
              possiblePin inCheck checks
        else (inCheck, checks)
      else
        rayScanAux board allyColor enemyColor startRow startCol j d0 d1 fuel (i + 1)
          possiblePin inCheck checks
    else (inCheck, checks)

/-- One index j of the direction loop of checksForPinsAndChecks. -/
def rayScanStep (board : Board) (allyColor enemyColor : Char) (startRow startCol : Int)
    (st : Bool × List Entry) (j : Nat) : Bool × List Entry :=
  let d := directionsList.getD j (0, 0)
  rayScanAux board allyColor enemyColor startRow startCol j d.1 d.2 7 1 none st.1 st.2

/-- One knight offset of the knight loop of checksForPinsAndChecks. -/
def knightScanStep (board : Board) (enemyColor : Char) (startRow startCol : Int)
    (st : Bool × List Entry) (m : Int × Int) : Bool × List Entry :=
  let endRow := startRow + m.1
  let endCol := startCol + m.2
  if 0 ≤ endRow ∧ endRow < 8 ∧ 0 ≤ endCol ∧ endCol < 8 then
    let endPiece := boardGet board endRow endCol
    if pyStrGet endPiece 0 = enemyColor ∧ pyStrGet endPiece 1 = 'N' then
      (true, st.2 ++ [(endRow, endCol, m.1, m.2)])
    else st
  else st

/-- GameState.checksForPinsAndChecks.  The local pins list of the source is
initialised empty and is never appended to anywhere in the function body, so
it is returned as the empty list it stays. -/
def checksForPinsAndChecks (s : GameState) : Bool × List Entry × List Entry :=
  let pins : List Entry := []
  let enemyColor : Char := if s.whiteToMove then 'b' else 'w'
  let allyColor : Char := if s.whiteToMove then 'w' else 'b'
  let startRow : Int := if s.whiteToMove then s.whiteKingLocation.1 else s.blackKingLocation.1
  let startCol : Int := if s.whiteToMove then s.whiteKingLocation.2 else s.blackKingLocation.2
  let afterRays :=
    (List.range directionsList.length).foldl
      (rayScanStep s.board allyColor enemyColor startRow startCol)
      (false, ([] : List Entry))
  let afterKnights :=
    knightMovesList.foldl (knightScanStep s.board enemyColor startRow startCol) afterRays
  (afterKnights.1, pins, afterKnights.2)

/-- Python list.remove for the pin list: drop the first tuple equal to p. -/
def pinRemoveFirst : List Entry → Entry → List Entry
  | [], _ => []
  | x :: xs, p => if x = p then xs else x :: pinRemoveFirst xs p

/-- The backwards scan over self.pins that each generator starts with: the
first match found iterating from the end (the last matching entry). -/
def findPinBackwards (pins : List Entry) (r c : Int) : Option Entry :=
  pins.reverse.find? fun p => p.1 = r ∧ p.2.1 = c

/-- GameState.getPawnMoves. -/
def getPawnMoves (s : GameState) (r c : Int) (moves : List Move) : GameState × List Move :=
  let found := findPinBackwards s.pins r c
  let piecePinned := found.isSome
  let pinDirection : Option (Int × Int) := found.map fun p => (p.2.2.1, p.2.2.2)
  let pins1 := match found with
    | some p => pinRemoveFirst s.pins p
    | none => s.pins
  let s1 := { s with pins := pins1 }
  let msOut :=
  if s1.whiteToMove then
    let ms1 :=
      if boardGet s1.board (r - 1) c = emptyCell then
        (if ¬piecePinned ∨ pinDirection = some ((-1 : Int), (0 : Int)) then
          let msA := moves ++ [mkMove (r, c) (r - 1, c) s1.board]
          if r = 6 ∧ boardGet s1.board (r - 2) c = emptyCell then
            msA ++ [mkMove (r, c) (r - 2, c) s1.board]
          else msA
        else moves)
      else moves
    let ms2 :=
      if c - 1 ≥ 0 then
        (if pyStrGet (boardGet s1.board (r - 1) (c - 1)) 0 = 'b' then
          (if ¬piecePinned ∨ pinDirection = some ((-1 : Int), (-1 : Int)) then
            ms1 ++ [mkMove (r, c) (r - 1, c - 1) s1.board]
          else ms1)
        else ms1)
      else ms1
    let ms3 :=
      if c + 1 ≤ 7 then
        (if pyStrGet (boardGet s1.board (r - 1) (c + 1)) 0 = 'b' then
          (if ¬piecePinned ∨ pinDirection = some ((-1 : Int), (1 : Int)) then
            ms2 ++ [mkMove (r, c) (r - 1, c + 1) s1.board]
          else ms2)
        else ms2)
      else ms2
    ms3
  else
    let ms1 :=
      if boardGet s1.board (r + 1) c = emptyCell then
        (if ¬piecePinned ∨ pinDirection = some ((1 : Int), (0 : Int)) then
          let msA := moves ++ [mkMove (r, c) (r + 1, c) s1.board]
          if r = 1 ∧ boardGet s1.board (r + 2) c = emptyCell then
            msA ++ [mkMove (r, c) (r + 2, c) s1.board]
          else msA
        else moves)
      else moves
    let ms2 :=
      if c - 1 ≥ 0 then
        (if pyStrGet (boardGet s1.board (r + 1) (c - 1)) 0 = 'w' then
          (if ¬piecePinned ∨ pinDirection = some ((1 : Int), (-1 : Int)) then
            ms1 ++ [mkMove (r, c) (r + 1, c - 1) s1.board]
          else ms1)
        else ms1)
      else ms1
    let ms3 :=
      if c + 1 ≤ 7 then
        (if pyStrGet (boardGet s1.board (r + 1) (c + 1)) 0 = 'w' then
          (if ¬piecePinned ∨ pinDirection = some ((1 : Int), (1 : Int)) then
            ms2 ++ [mkMove (r, c) (r + 1, c + 1) s1.board]
          else ms2)
        else ms2)
      else ms2
    ms3
  (s1, msOut)

/-- The shared sliding inner loop (i = 1..7 with break) of getRookMoves and
getBishopMoves, for one direction. -/
def slideRayAux (b : Board) (r c : Int) (piecePinned : Bool)
    (pinDirection : Option (Int × Int)) (enemyColor : Char) (d0 d1 : Int) :
    Nat → Nat → List Move → List Move
  | 0, _, ms => ms
  | fuel + 1, i, ms =>
    let endRow := r + d0 * (i : Int)
    let endCol := c + d1 * (i : Int)
    if 0 ≤ endRow ∧ endRow < 8 ∧ 0 ≤ endCol ∧ endCol < 8 then
      if ¬piecePinned ∨ pinDirection = some (d0, d1) ∨ pinDirection = some (-d0, -d1) then
        let endPiece := boardGet b endRow endCol
        if endPiece = emptyCell then
          slideRayAux b r c piecePinned pinDirection enemyColor d0 d1 fuel (i + 1)
            (ms ++ [mkMove (r, c) (endRow, endCol) b])
        else if pyStrGet endPiece 0 = enemyColor then
          ms ++ [mkMove (r, c) (endRow, endCol) b]
        else ms
      else ms
    else ms

/-- GameState.getRookMoves (with the queen guard on the pin removal). -/
def getRookMoves (s : GameState) (r c : Int) (moves : List Move) : GameState × List Move :=
  let found := findPinBackwards s.pins r c
  let piecePinned := found.isSome
  let pinDirection : Option (Int × Int) := found.map fun p => (p.2.2.1, p.2.2.2)
  let pins1 := match found with
    | some p =>
      if pyStrGet (boardGet s.board r c) 1 ≠ 'Q' then pinRemoveFirst s.pins p else s.pins
    | none => s.pins
  let s1 := { s with pins := pins1 }
  let enemyColor : Char := if s1.whiteToMove then 'b' else 'w'
  let ms :=
    [((-1 : Int), (0 : Int)), (1, 0), (0, -1), (0, 1)].foldl
      (fun acc d => slideRayAux s1.board r c piecePinned pinDirection enemyColor d.1 d.2 7 1 acc)
      moves
  (s1, ms)

/-- GameState.getKnightMoves. -/
def getKnightMoves (s : GameState) (r c : Int) (moves : List Move) : GameState × List Move :=
  let found := findPinBackwards s.pins r c
  let piecePinned := found.isSome
  let pins1 := match found with
    | some p => pinRemoveFirst s.pins p
    | none => s.pins
  let s1 := { s with pins := pins1 }
  let allyColor : Char := if s1.whiteToMove then 'w' else 'b'
  let ms :=
    knightMovesList.foldl
      (fun acc m =>
        let endRow := r + m.1
        let endCol := c + m.2
        if 0 ≤ endRow ∧ endRow < 8 ∧ 0 ≤ endCol ∧ endCol < 8 then
          if ¬piecePinned then
            (if pyStrGet (boardGet s1.board endRow endCol) 0 ≠ allyColor then
              acc ++ [mkMove (r, c) (endRow, endCol) s1.board]
            else acc)
          else acc
        else acc)
      moves
  (s1, ms)

/-- GameState.getBishopMoves. -/
def getBishopMoves (s : GameState) (r c : Int) (moves : List Move) : GameState × List Move :=
  let found := findPinBackwards s.pins r c
  let piecePinned := found.isSome
  let pinDirection : Option (Int × Int) := found.map fun p => (p.2.2.1, p.2.2.2)
  let pins1 := match found with
    | some p => pinRemoveFirst s.pins p
    | none => s.pins
  let s1 := { s with pins := pins1 }
  let enemyColor : Char := if s1.whiteToMove then 'b' else 'w'
  let ms :=
    [((-1 : Int), (-1 : Int)), (1, 1), (1, -1), (-1, 1)].foldl
      (fun acc d => slideRayAux s1.board r c piecePinned pinDirection enemyColor d.1 d.2 7 1 acc)
      moves
  (s1, ms)

/-- GameState.getQueenMoves. -/
def getQueenMoves (s : GameState) (r c : Int) (moves : List Move) : GameState × List Move :=
  let (s1, ms1) := getRookMoves s r c moves
  getBishopMoves s1 r c ms1

/-- The 8 king offsets, in the source's order. -/
def kingMovesList : List (Int × Int) :=
  [(-1, -1), (-1, 0), (-1, 1), (0, -1), (0, 1), (1, -1), (1, 0), (1, 1)]

/-- One candidate square of getKingMoves: speculative relocation of the king
cache, a check query, and the unconditional restoration. -/
def kingScanStep (r c : Int) (allyColor : Char) (st : GameState × List Move)
    (km : Int × Int) : GameState × List Move :=
  let s0 := st.1
  let acc := st.2
  let endRow := r + km.1
  let endCol := c + km.2
  if 0 ≤ endRow ∧ endRow < 8 ∧ 0 ≤ endCol ∧ endCol < 8 then
    let endPiece := boardGet s0.board endRow endCol
    if pyStrGet endPiece 0 ≠ allyColor then
      let sSpec :=
        if allyColor = 'w' then { s0 with whiteKingLocation := (endRow, endCol) }
        else { s0 with blackKingLocation := (endRow, endCol) }
      let res := checksForPinsAndChecks sSpec
      let acc1 :=
        if ¬res.1 then acc ++ [mkMove (r, c) (endRow, endCol) sSpec.board] else acc
      let sBack :=
        if allyColor = 'w' then { sSpec with whiteKingLocation := (r, c) }
        else { sSpec with blackKingLocation := (r, c) }
      (sBack, acc1)
    else (s0, acc)
  else (s0, acc)

/-- GameState.getKingMoves, with the speculative relocation of the king
cache before each check query and the unconditional restoration after it. -/
def getKingMoves (s : GameState) (r c : Int) (moves : List Move) : GameState × List Move :=
  let allyColor : Char := if s.whiteToMove then 'w' else 'b'
  kingMovesList.foldl (kingScanStep r c allyColor) (s, moves)

/-- The moveFunction dispatch dictionary of GameState.__init__.  A piece
character outside the dictionary would be a KeyError in Python; it cannot
occur on a well-formed board, and is modelled as a no-op. -/
def moveFunction (s : GameState) (piece : Char) (r c : Int) (ms : List Move) :
    GameState × List Move :=
  if piece = 'p' then getPawnMoves s r c ms
  else if piece = 'R' then getRookMoves s r c ms
  else if piece = 'N' then getKnightMoves s r c ms
  else if piece = 'B' then getBishopMoves s r c ms
  else if piece = 'Q' then getQueenMoves s r c ms
  else if piece = 'K' then getKingMoves s r c ms
  else (s, ms)

/-- One square (r, c) of the getAllPossibleMoves scan: if the piece there
belongs to the side to move, dispatch to its generator. -/
def squareScanStep (r c : Int) (st : GameState × List Move) : GameState × List Move :=
  let s0 := st.1
  let turn := pyStrGet (boardGet s0.board r c) 0
  if (turn = 'w' ∧ s0.whiteToMove) ∨ (turn = 'b' ∧ ¬s0.whiteToMove) then
    let piece := pyStrGet (boardGet s0.board r c) 1
    moveFunction s0 piece r c st.2
  else st

/-- GameState.getAllPossibleMoves: row-major scan of the board, dispatching
on the piece at each square of the side to move. -/
def getAllPossibleMoves (s : GameState) : GameState × List Move :=
  (List.range s.board.length).foldl
    (fun (st : GameState × List Move) (r : Nat) =>
      (List.range (pyGetD st.1.board (r : Int) []).length).foldl
        (fun (st2 : GameState × List Move) (c : Nat) => squareScanStep (r : Int) (c : Int) st2)
        st)
    (s, ([] : List Move))

/-- The valid-squares loop of getValidMoves for a sliding checker: walk from
the king along the check direction, recording each square, and break once
the checker's square is recorded. -/
def validSquaresAux (kingRow kingCol d0 d1 checkRow checkCol : Int) :
    Nat → Nat → List (Int × Int) → List (Int × Int)
  | 0, _, acc => acc
  | fuel + 1, i, acc =>
    let validSquare := (kingRow + d0 * (i : Int), kingCol + d1 * (i : Int))
    let acc1 := acc ++ [validSquare]
    if validSquare.1 = checkRow ∧ validSquare.2 = checkCol then acc1
    else validSquaresAux kingRow kingCol d0 d1 checkRow checkCol fuel (i + 1) acc1

/-- Python list.remove on the move list: remove the first move equal to m
under Move.__eq__ (moveID equality). -/
def moveRemoveFirst : List Move → Move → List Move
  | [], _ => []
  | x :: xs, m => if x.moveID = m.moveID then xs else x :: moveRemoveFirst xs m

/-- The backwards removal loop of getValidMoves: for i from n-1 down to 0,
drop moves[i] when it neither moves the king nor lands on a valid square. -/
def checkFilterAux (validSquares : List (Int × Int)) : Nat → List Move → List Move
  | 0, ms => ms
  | n + 1, ms =>
    let ms1 :=
      match ms.get? n with
      | some m =>
        if pyStrGet m.pieceMoved 1 ≠ 'K' then
          (if ¬((m.endRow, m.endCol) ∈ validSquares) then moveRemoveFirst ms m else ms)
        else ms
      | none => ms
    checkFilterAux validSquares n ms1

/-- GameState.getValidMoves. -/
def getValidMoves (s : GameState) : GameState × List Move :=
  let res := checksForPinsAndChecks s
  let s1 := { s with inCheck := res.1, pins := res.2.1, checks := res.2.2 }
  let kingRow : Int := if s1.whiteToMove then s1.whiteKingLocation.1 else s1.blackKingLocation.1
  let kingCol : Int := if s1.whiteToMove then s1.whiteKingLocation.2 else s1.blackKingLocation.2
  if s1.inCheck then
    if s1.checks.length = 1 then
      let gen := getAllPossibleMoves s1
      let s2 := gen.1
      let check := s2.checks.getD 0 (0, 0, 0, 0)
      let checkRow := check.1
      let checkCol := check.2.1
      let pieceChecking := boardGet s2.board checkRow checkCol
      let validSquares :=
        if pyStrGet pieceChecking 1 = 'N' then [(checkRow, checkCol)]
        else validSquaresAux kingRow kingCol check.2.2.1 check.2.2.2 checkRow checkCol 7 1 []
      (s2, checkFilterAux validSquares gen.2.length gen.2)
    else getKingMoves s1 kingRow kingCol []
  else getAllPossibleMoves s1

/-- Move.ranksToRows. -/
def ranksToRows : List (String × Int) :=
  [("1", 7), ("2", 6), ("3", 5), ("4", 4), ("5", 3), ("6", 2), ("7", 1), ("8", 0)]

/-- Move.rowsToRanks, the inverted dictionary. -/
def rowsToRanks : List (Int × String) := ranksToRows.map fun p => (p.2, p.1)

/-- Move.filesToCols. -/
def filesToCols : List (String × Int) :=
  [("a", 7), ("b", 6), ("c", 5), ("d", 4), ("e", 3), ("f", 2), ("g", 1), ("h", 0)]

/-- Move.colsToFiles, the inverted dictionary. -/
def colsToFiles : List (Int × String) := filesToCols.map fun p => (p.2, p.1)

/-- Dictionary lookup for the int-keyed maps (KeyError modelled as ""). -/
def lookupIS (l : List (Int × String)) (k : Int) : String :=
  ((l.find? fun p => p.1 = k).map fun p => p.2).getD ""

/-- Move.getRankFile. -/
def getRankFile (r c : Int) : String := lookupIS colsToFiles c ++ lookupIS rowsToRanks r

/-- Move.getChessNotation. -/
def getChessNotation (m : Move) : String :=
  getRankFile m.startRow m.startCol ++ getRankFile m.endRow m.endCol

/-- The king-location cache of the side to move. -/
def cacheOfSide (s : GameState) : Int × Int :=
  if s.whiteToMove then s.whiteKingLocation else s.blackKingLocation

/-- Running the check detector for the king of the side that just moved:
apply the move, then evaluate checksForPinsAndChecks with the mover's colour
to move (the detector picks its king from whiteToMove). -/
def moverInCheckAfter (s : GameState) (m : Move) : Bool :=
  (checksForPinsAndChecks { makeMove s m with whiteToMove := s.whiteToMove }).1

/-- Position after 1. the (6,4) pawn double-advances. -/
def stateA : GameState := makeMove initialGameState (mkMove (6, 4) (4, 4) initialGameState.board)

/-- Position after black then advances the (1,0) pawn one square. -/
def stateB : GameState := makeMove stateA (mkMove (1, 0) (2, 0) stateA.board)

/-- Position after white then slides the (7,5) bishop to (3,1): the black
pawn on (1,3) is now the only piece between the bishop and the black king on
(0,4) along the (1,-1) ray, i.e. it is pinned. -/
def stateC : GameState := makeMove stateB (mkMove (7, 5) (3, 1) stateB.board)

/-- The pinned pawn stepping off the pin ray, which exposes the black king. -/
def pinnedPawnMove : Move := mkMove (1, 3) (2, 3) stateC.board

/-- Folding preserves any invariant each step preserves. -/
theorem foldl_preserve {σ ι : Type _} (P : σ → Prop) (step : σ → ι → σ) :
    ∀ (l : List ι) (s : σ), P s → (∀ x i, P x → P (step x i)) → P (l.foldl step s)
  | [], _, hs, _ => hs
  | i :: l, s, hs, hstep => foldl_preserve P step l (step s i) (hstep s i hs) hstep

/-- The pins component returned by the detector is the untouched empty list. -/
theorem checksForPinsAndChecks_pins (s : GameState) : (checksForPinsAndChecks s).2.1 = [] := rfl

theorem findPinBackwards_nil (r c : Int) : findPinBackwards [] r c = none := rfl

theorem getPawnMoves_pins_empty (s : GameState) (r c : Int) (ms : List Move)
    (h : s.pins = []) : (getPawnMoves s r c ms).1.pins = [] := by
  unfold getPawnMoves
  rw [h]
  rfl

theorem getRookMoves_pins_empty (s : GameState) (r c : Int) (ms : List Move)
    (h : s.pins = []) : (getRookMoves s r c ms).1.pins = [] := by
  unfold getRookMoves
  rw [h]
  rfl

theorem getKnightMoves_pins_empty (s : GameState) (r c : Int) (ms : List Move)
    (h : s.pins = []) : (getKnightMoves s r c ms).1.pins = [] := by
  unfold getKnightMoves
  rw [h]
  rfl

theorem getBishopMoves_pins_empty (s : GameState) (r c : Int) (ms : List Move)
    (h : s.pins = []) : (getBishopMoves s r c ms).1.pins = [] := by
  unfold getBishopMoves
  rw [h]
  rfl

theorem getQueenMoves_pins_empty (s : GameState) (r c : Int) (ms : List Move)
    (h : s.pins = []) : (getQueenMoves s r c ms).1.pins = [] := by
  unfold getQueenMoves
  exact getBishopMoves_pins_empty _ r c _ (getRookMoves_pins_empty s r c ms h)

/-- Claim C1 (code bug).  A reachable line of play: every move of the
sequence is a member of getValidMoves of its predecessor state, yet the last
one — the pinned pawn at (1,3) stepping to (2,3) — is offered by
getValidMoves and leaves the mover's own king in check as reported by
checksForPinsAndChecks run for that king after the move.  The legality
contract of the spec fails because the detector never records pins. -/
theorem claim_C1 :
    mkMove (6, 4) (4, 4) initialGameState.board ∈ (getValidMoves initialGameState).2 ∧
    mkMove (1, 0) (2, 0) stateA.board ∈ (getValidMoves stateA).2 ∧
    mkMove (7, 5) (3, 1) stateB.board ∈ (getValidMoves stateB).2 ∧
    pinnedPawnMove ∈ (getValidMoves stateC).2 ∧
    moverInCheckAfter stateC pinnedPawnMove = true := by decide

/-- Claim C2 (code bug).  In the reachable position stateC, the ray from the
black king (0,4) in direction (1,-1) meets exactly one friendly non-king
piece — the pawn on (1,3) — and then the enemy bishop on (3,1), a qualifying
diagonal attacker; the claim requires the pair (pinned square, ray
direction) in the returned pins list and no check for that ray.  The
detector records no check for that ray (checks is empty here, as required)
but it also returns an empty pins list — indeed its pins output is the empty
list for every state, since the source never appends to it. -/
theorem claim_C2 :
    (stateC.whiteToMove = false ∧ stateC.blackKingLocation = (0, 4) ∧
      boardGet stateC.board 1 3 = "bp" ∧ boardGet stateC.board 2 2 = emptyCell ∧
      boardGet stateC.board 3 1 = "wB" ∧
      (checksForPinsAndChecks stateC).2.2 = [] ∧
      (checksForPinsAndChecks stateC).2.1 = []) ∧
    (∀ s : GameState, (checksForPinsAndChecks s).2.1 = []) := by
  exact ⟨by decide, fun s => rfl⟩

/-- Claim C6.  For every position, the pins list computed by
checksForPinsAndChecks is left unchanged by running any of the five
per-piece generators on a state carrying it. -/
theorem claim_C6 (s : GameState) (r c : Int) (ms : List Move) :
    (getPawnMoves { s with pins := (checksForPinsAndChecks s).2.1 } r c ms).1.pins
        = (checksForPinsAndChecks s).2.1 ∧
    (getRookMoves { s with pins := (checksForPinsAndChecks s).2.1 } r c ms).1.pins
        = (checksForPinsAndChecks s).2.1 ∧
    (getKnightMoves { s with pins := (checksForPinsAndChecks s).2.1 } r c ms).1.pins
        = (checksForPinsAndChecks s).2.1 ∧
    (getBishopMoves { s with pins := (checksForPinsAndChecks s).2.1 } r c ms).1.pins
        = (checksForPinsAndChecks s).2.1 ∧
    (getQueenMoves { s with pins := (checksForPinsAndChecks s).2.1 } r c ms).1.pins
        = (checksForPinsAndChecks s).2.1 := by
  rw [checksForPinsAndChecks_pins]
  exact ⟨getPawnMoves_pins_empty _ r c ms rfl, getRookMoves_pins_empty _ r c ms rfl,
    getKnightMoves_pins_empty _ r c ms rfl, getBishopMoves_pins_empty _ r c ms rfl,
    getQueenMoves_pins_empty _ r c ms rfl⟩

/-- Claim C7.  When getKingMoves is entered with (r, c) equal to the cached
king square of the side to move (as on every call site), both king-location
caches are unchanged when it returns, whichever candidate squares were
examined or accepted. -/
theorem claim_C7 (s : GameState) (r c : Int) (ms : List Move)
    (h : cacheOfSide s = (r, c)) :
    (getKingMoves s r c ms).1.whiteKingLocation = s.whiteKingLocation ∧
    (getKingMoves s r c ms).1.blackKingLocation = s.blackKingLocation := by
  unfold getKingMoves
  refine foldl_preserve
    (fun st : GameState × List Move =>
      st.1.whiteKingLocation = s.whiteKingLocation ∧
      st.1.blackKingLocation = s.blackKingLocation)
    (kingScanStep r c (if s.whiteToMove then 'w' else 'b')) kingMovesList (s, ms)
    ⟨rfl, rfl⟩ ?_
  intro st km hst
  unfold cacheOfSide at h
  unfold kingScanStep
  by_cases hw : s.whiteToMove = true
  · simp only [hw, if_true] at h ⊢
    split
    · split
      · exact ⟨h.symm, hst.2⟩
      · exact hst
    · exact hst
  · simp only [hw, if_false, Bool.false_eq_true] at h ⊢
    split
    · split
      · simp only [if_neg (by decide : ¬('b' = 'w'))]
        exact ⟨hst.1, h.symm⟩
      · exact hst
    · exact hst

/-- Witness for claim C7 at the initial position's white king square. -/
theorem claim_C7_witness :
    cacheOfSide initialGameState = (7, 4) ∧
    ((getKingMoves initialGameState 7 4 []).1.whiteKingLocation
        = initialGameState.whiteKingLocation ∧
      (getKingMoves initialGameState 7 4 []).1.blackKingLocation
        = initialGameState.blackKingLocation) :=
  ⟨rfl, claim_C7 initialGameState 7 4 [] rfl⟩

/-- Claim C8.  undoMove on an empty move log is a no-op: the whole state —
board, turn flag, both king caches and the log — is returned unchanged. -/
theorem claim_C8 (s : GameState) (h : s.moveLog = []) : undoMove s = s := by
  unfold undoMove
  rw [h]
  rfl

/-- Witness for claim C8 at the initial state. -/
theorem claim_C8_witness :
    initialGameState.moveLog = [] ∧ undoMove initialGameState = initialGameState :=
  ⟨rfl, claim_C8 initialGameState rfl⟩

/-- The file letter the claim assigns to a column: 0 ↦ h … 7 ↦ a. -/
def specFileChar (c : Int) : Char := Char.ofNat ('a'.toNat + (7 - c).toNat)

/-- The rank digit the claim assigns to a row: 0 ↦ 8 … 7 ↦ 1. -/
def specRankChar (r : Int) : Char := Char.ofNat ('1'.toNat + (7 - r).toNat)

theorem getRankFile_eq (r c : Int) (hr0 : 0 ≤ r) (hr : r < 8) (hc0 : 0 ≤ c) (hc : c < 8) :
    getRankFile r c = String.mk [specFileChar c, specRankChar r] := by
  interval_cases r <;> interval_cases c <;> decide

/-- Claim C9.  For in-range coordinates, getChessNotation is the 4-character
string file+rank of the start square then file+rank of the end square, with
column 0 ↦ file h … column 7 ↦ file a and row 0 ↦ rank 8 … row 7 ↦ rank 1. -/
theorem claim_C9 (m : Move)
    (h1 : 0 ≤ m.startRow) (h2 : m.startRow < 8) (h3 : 0 ≤ m.startCol) (h4 : m.startCol < 8)
    (h5 : 0 ≤ m.endRow) (h6 : m.endRow < 8) (h7 : 0 ≤ m.endCol) (h8 : m.endCol < 8) :
    (getChessNotation m).length = 4 ∧
    getChessNotation m =
      String.mk [specFileChar m.startCol, specRankChar m.startRow,
        specFileChar m.endCol, specRankChar m.endRow] := by
  unfold getChessNotation
  rw [getRankFile_eq _ _ h1 h2 h3 h4, getRankFile_eq _ _ h5 h6 h7 h8]
  exact ⟨rfl, rfl⟩

/-- Witness for claim C9: the (6,4) to (4,4) pawn move reads as d2d4. -/
theorem claim_C9_witness :
    ((getChessNotation (mkMove (6, 4) (4, 4) initialGameState.board)).length = 4 ∧
      getChessNotation (mkMove (6, 4) (4, 4) initialGameState.board) =
        String.mk [specFileChar 4, specRankChar 6, specFileChar 4, specRankChar 4]) ∧
    getChessNotation (mkMove (6, 4) (4, 4) initialGameState.board) = "d2d4" :=
  ⟨claim_C9 (mkMove (6, 4) (4, 4) initialGameState.board)
      (by decide) (by decide) (by decide) (by decide)
      (by decide) (by decide) (by decide) (by decide),
    by decide⟩

/-- Claim C10.  With white to move and a white pawn on row 0 (reachable
because promotion is unimplemented), the square-ahead lookup of getPawnMoves
uses row index r - 1 = -1; under Python's negative indexing this reads row 7
— the opposite edge of the board — rather than failing: the read succeeds
(isSome) and equals the row-7 read, and the generated moves are exactly the
ones computed from row 7's contents (note the destinations have row 0 - 1). -/
theorem claim_C10 (s : GameState) (c : Int) (ms : List Move)
    (hw : s.whiteToMove = true) (hb : s.board.length = 8) (hp : s.pins = []) :
    (pyGet? s.board (0 - 1)).isSome = true ∧
    pyGet? s.board (0 - 1) = s.board.get? 7 ∧
    (getPawnMoves s 0 c ms).2 =
      (let ms1 :=
        if boardGet s.board 7 c = emptyCell then
          ms ++ [mkMove (0, c) (0 - 1, c) s.board]
        else ms
      let ms2 :=
        if c - 1 ≥ 0 then
          (if pyStrGet (boardGet s.board 7 (c - 1)) 0 = 'b' then
            ms1 ++ [mkMove (0, c) (0 - 1, c - 1) s.board]
          else ms1)
        else ms1
      if c + 1 ≤ 7 then
        (if pyStrGet (boardGet s.board 7 (c + 1)) 0 = 'b' then
          ms2 ++ [mkMove (0, c) (0 - 1, c + 1) s.board]
        else ms2)
      else ms2) := by
  have hidx : pyIdx? s.board.length (0 - 1) = some 7 := by
    rw [hb]; decide
  have hget : pyGet? s.board (0 - 1) = s.board.get? 7 := by
    unfold pyGet?
    rw [hidx]
    rfl
  have hsome : (pyGet? s.board (0 - 1)).isSome = true := by
    rw [hget, List.get?_eq_get (by omega)]
    rfl
  have hbg : ∀ x : Int, boardGet s.board (0 - 1) x = boardGet s.board 7 x := by
    intro x
    unfold boardGet pyGetD
    rw [hget]
    have : pyGet? s.board 7 = s.board.get? 7 := by
      unfold pyGet?
      rw [hb]
      rfl
    rw [this]
  refine ⟨hsome, hget, ?_⟩
  have h06 : ((0 : Int) = 6) = False := by decide
  simp only [getPawnMoves, hp, findPinBackwards, List.reverse_nil, List.find?_nil,
    Option.isSome_none, Option.map_none', hw, if_true, Bool.false_eq_true,
    not_false_eq_true, true_or, h06, false_and, if_false, hbg]

/-- A state with a white pawn on the back rank (0,0); row 7 holds a black
pawn on column 1 so both the advance and the right capture read row 7. -/
def rowZeroPawnState : GameState :=
  { board :=
      [ ["wp", "--", "--", "--", "--", "--", "--", "--"],
        ["--", "--", "--", "--", "--", "--", "--", "--"],
        ["--", "--", "--", "--", "--", "--", "--", "--"],
        ["--", "--", "--", "--", "--", "--", "--", "--"],
        ["--", "--", "--", "--", "--", "--", "--", "--"],
        ["--", "--", "--", "--", "--", "--", "--", "--"],
        ["--", "--", "--", "--", "--", "--", "--", "--"],
        ["--", "bp", "--", "--", "--", "--", "--", "--"] ]
    whiteToMove := true
    moveLog := []
    whiteKingLocation := (7, 4)
    blackKingLocation := (0, 4)
    inCheck := false
    pins := []
    checks := [] }

/-- Witness for claim C10: at (0,0) the generator returns normally, reading
row 7, and emits moves whose destination row is 0 - 1 = -1. -/
theorem claim_C10_witness :
    (pyGet? rowZeroPawnState.board (0 - 1)).isSome = true ∧
    pyGet? rowZeroPawnState.board (0 - 1) = rowZeroPawnState.board.get? 7 ∧
    (getPawnMoves rowZeroPawnState 0 0 []).2 =
      [mkMove (0, 0) (0 - 1, 0) rowZeroPawnState.board,
        mkMove (0, 0) (0 - 1, 1) rowZeroPawnState.board] := by
  have h := claim_C10 rowZeroPawnState 0 [] rfl rfl rfl
  refine ⟨h.1, h.2.1, ?_⟩
  rw [h.2.2]
  decide

theorem rayScanAux_inCheck_iff (board : Board) (allyColor enemyColor : Char)
    (startRow startCol : Int) (j : Nat) (d0 d1 : Int) :
    ∀ (fuel i : Nat) (pp : Option Entry) (b : Bool) (cs : List Entry),
      (b = true ↔ cs ≠ []) →
      ((rayScanAux board allyColor enemyColor startRow startCol j d0 d1 fuel i pp b cs).1 = true ↔
        (rayScanAux board allyColor enemyColor startRow startCol j d0 d1 fuel i pp b cs).2 ≠ [])
  | 0, _, _, _, _, h => h
  | fuel + 1, i, pp, b, cs, h => by
    unfold rayScanAux
    dsimp only
    split
    · split
      · split
        · exact rayScanAux_inCheck_iff board allyColor enemyColor startRow startCol j d0 d1
            fuel (i + 1) _ b cs h
        · exact h
      · split
        · split
          · split
            · simp
            · exact rayScanAux_inCheck_iff board allyColor enemyColor startRow startCol j d0 d1
                fuel (i + 1) _ b cs h
          · exact h
        · exact rayScanAux_inCheck_iff board allyColor enemyColor startRow startCol j d0 d1
            fuel (i + 1) _ b cs h
    · exact h

theorem knightScanStep_inCheck_iff (board : Board) (enemyColor : Char)
    (startRow startCol : Int) (st : Bool × List Entry) (m : Int × Int)
    (h : st.1 = true ↔ st.2 ≠ []) :
    ((knightScanStep board enemyColor startRow startCol st m).1 = true ↔
      (knightScanStep board enemyColor startRow startCol st m).2 ≠ []) := by
  unfold knightScanStep
  dsimp only
  split
  · split
    · simp
    · exact h
  · exact h

/-- The detector's flag agrees with non-emptiness of its checks list. -/
theorem checksForPinsAndChecks_inCheck_iff (s : GameState) :
    ((checksForPinsAndChecks s).1 = true ↔ (checksForPinsAndChecks s).2.2 ≠ []) := by
  unfold checksForPinsAndChecks
  dsimp only
  refine foldl_preserve
    (fun st : Bool × List Entry => st.1 = true ↔ st.2 ≠ []) _ knightMovesList _
    (foldl_preserve (fun st : Bool × List Entry => st.1 = true ↔ st.2 ≠ []) _
      (List.range directionsList.length) _ (by simp) ?_) ?_
  · intro st j hst
    exact rayScanAux_inCheck_iff s.board _ _ _ _ j _ _ 7 1 none st.1 st.2 hst
  · intro st m hst
    exact knightScanStep_inCheck_iff s.board _ _ _ st m hst

/-- A single kingScanStep keeps the board component of the state. -/
theorem kingScanStep_board (r c : Int) (allyColor : Char) (st : GameState × List Move)
    (km : Int × Int) : (kingScanStep r c allyColor st km).1.board = st.1.board := by
  unfold kingScanStep
  dsimp only
  split
  · split
    · split <;> rfl
    · rfl
  · rfl

/-- A single kingScanStep either keeps the move list or appends one move of
the king built from the unchanged board. -/
theorem kingScanStep_moves (r c : Int) (a : Char) (st : GameState × List Move)
    (km : Int × Int) :
    (kingScanStep r c a st km).2 = st.2 ∨
    ∃ er ec : Int,
      (kingScanStep r c a st km).2 = st.2 ++ [mkMove (r, c) (er, ec) st.1.board] := by
  unfold kingScanStep
  by_cases ha : a = 'w'
  · simp only [ha, eq_self_iff_true, if_true]
    split
    · split
      · split
        · exact Or.inr ⟨r + km.1, c + km.2, rfl⟩
        · exact Or.inl rfl
      · exact Or.inl rfl
    · exact Or.inl rfl
  · simp only [if_neg ha]
    split
    · split
      · split
        · exact Or.inr ⟨r + km.1, c + km.2, rfl⟩
        · exact Or.inl rfl
      · exact Or.inl rfl
    · exact Or.inl rfl

/-- Every move produced by getKingMoves starts at the square it was called
on, and its pieceMoved field is the board content of that square. -/
theorem getKingMoves_mem (s : GameState) (r c : Int) (ms : List Move) :
    ∀ m ∈ (getKingMoves s r c ms).2,
      m ∈ ms ∨ (m.startRow = r ∧ m.startCol = c ∧ m.pieceMoved = boardGet s.board r c) := by
  unfold getKingMoves
  refine (foldl_preserve
    (fun st : GameState × List Move =>
      st.1.board = s.board ∧
      ∀ m ∈ st.2, m ∈ ms ∨ (m.startRow = r ∧ m.startCol = c ∧
        m.pieceMoved = boardGet s.board r c))
    (kingScanStep r c (if s.whiteToMove then 'w' else 'b')) kingMovesList (s, ms)
    ⟨rfl, fun m hm => Or.inl hm⟩ ?_).2
  intro st km hst
  refine ⟨(kingScanStep_board _ _ _ st km).trans hst.1, ?_⟩
  intro m hm
  rcases kingScanStep_moves r c _ st km with he | ⟨er, ec, he⟩
  · rw [he] at hm
    exact hst.2 m hm
  · rw [he] at hm
    rcases List.mem_append.1 hm with h1 | h1
    · exact hst.2 m h1
    · right
      rw [List.mem_singleton.1 h1]
      refine ⟨rfl, rfl, ?_⟩
      show boardGet st.1.board r c = boardGet s.board r c
      rw [hst.1]

/-- Claim C3.  Whenever the detector reports two or more checks, every move
returned by getValidMoves has the side-to-move's king as pieceMoved (the
state hypothesis is the documented cache invariant: the cached king square
of the side to move holds that side's king piece). -/
theorem claim_C3 (s : GameState)
    (hk : boardGet s.board (cacheOfSide s).1 (cacheOfSide s).2
        = (if s.whiteToMove then whiteKingPiece else blackKingPiece))
    (h2 : 2 ≤ (checksForPinsAndChecks s).2.2.length) :
    ∀ m ∈ (getValidMoves s).2,
      m.pieceMoved = (if s.whiteToMove then whiteKingPiece else blackKingPiece) := by
  have hin : (checksForPinsAndChecks s).1 = true := by
    refine (checksForPinsAndChecks_inCheck_iff s).2 ?_
    intro h
    rw [h] at h2
    simp at h2
  have hne : ((checksForPinsAndChecks s).2.2.length = 1) = False := by
    simp only [eq_iff_iff, iff_false]
    omega
  intro m hm
  unfold cacheOfSide at hk
  by_cases hw : s.whiteToMove = true
  · simp only [getValidMoves, hin, hne, hw, if_true, if_false, eq_self_iff_true] at hm
    simp only [hw, if_true] at hk ⊢
    rcases getKingMoves_mem _ _ _ _ m hm with h | ⟨_, _, hp⟩
    · simp at h
    · rw [hp]
      exact hk
  · simp only [getValidMoves, hin, hne, hw, if_true, if_false, eq_self_iff_true,
      Bool.false_eq_true] at hm
    simp only [hw, if_false, Bool.false_eq_true] at hk ⊢
    rcases getKingMoves_mem _ _ _ _ m hm with h | ⟨_, _, hp⟩
    · simp at h
    · rw [hp]
      exact hk

/-- A position where the white king on (7,4) faces two simultaneous black
rook checks, from (4,4) down the file and from (7,0) along the rank. -/
def doubleCheckState : GameState :=
  { board :=
      [ ["bK", "--", "--", "--", "--", "--", "--", "--"],
        ["--", "--", "--", "--", "--", "--", "--", "--"],
        ["--", "--", "--", "--", "--", "--", "--", "--"],
        ["--", "--", "--", "--", "--", "--", "--", "--"],
        ["--", "--", "--", "--", "bR", "--", "--", "--"],
        ["--", "--", "--", "--", "--", "--", "--", "--"],
        ["--", "--", "--", "--", "--", "--", "--", "--"],
        ["bR", "--", "--", "--", "wK", "--", "--", "--"] ]
    whiteToMove := true
    moveLog := []
    whiteKingLocation := (7, 4)
    blackKingLocation := (0, 0)
    inCheck := false
    pins := []
    checks := [] }

theorem getPawnMoves_fst (s : GameState) (r c : Int) (ms : List Move) :
    (getPawnMoves s r c ms).1
      = { s with pins :=
            match findPinBackwards s.pins r c with
            | some p => pinRemoveFirst s.pins p
            | none => s.pins } := rfl

theorem getRookMoves_fst (s : GameState) (r c : Int) (ms : List Move) :
    (getRookMoves s r c ms).1
      = { s with pins :=
            match findPinBackwards s.pins r c with
            | some p =>
              if pyStrGet (boardGet s.board r c) 1 ≠ 'Q' then pinRemoveFirst s.pins p
              else s.pins
            | none => s.pins } := rfl

theorem getKnightMoves_fst (s : GameState) (r c : Int) (ms : List Move) :
    (getKnightMoves s r c ms).1
      = { s with pins :=
            match findPinBackwards s.pins r c with
            | some p => pinRemoveFirst s.pins p
            | none => s.pins } := rfl

theorem getBishopMoves_fst (s : GameState) (r c : Int) (ms : List Move) :
    (getBishopMoves s r c ms).1
      = { s with pins :=
            match findPinBackwards s.pins r c with
            | some p => pinRemoveFirst s.pins p
            | none => s.pins } := rfl

/-- kingScanStep only ever touches the king caches and the move list. -/
theorem kingScanStep_frame (r c : Int) (a : Char) (st : GameState × List Move)
    (km : Int × Int) :
    (kingScanStep r c a st km).1.board = st.1.board ∧
    (kingScanStep r c a st km).1.whiteToMove = st.1.whiteToMove ∧
    (kingScanStep r c a st km).1.checks = st.1.checks ∧
    (kingScanStep r c a st km).1.inCheck = st.1.inCheck ∧
    (kingScanStep r c a st km).1.moveLog = st.1.moveLog ∧
    (kingScanStep r c a st km).1.pins = st.1.pins := by
  unfold kingScanStep
  dsimp only
  repeat' split
  all_goals exact ⟨rfl, rfl, rfl, rfl, rfl, rfl⟩

theorem getKingMoves_frame (s : GameState) (r c : Int) (ms : List Move) :
    (getKingMoves s r c ms).1.board = s.board ∧
    (getKingMoves s r c ms).1.whiteToMove = s.whiteToMove ∧
    (getKingMoves s r c ms).1.checks = s.checks := by
  unfold getKingMoves
  refine foldl_preserve
    (fun st : GameState × List Move =>
      st.1.board = s.board ∧ st.1.whiteToMove = s.whiteToMove ∧ st.1.checks = s.checks)
    (kingScanStep r c (if s.whiteToMove then 'w' else 'b')) kingMovesList (s, ms)
    ⟨rfl, rfl, rfl⟩ ?_
  intro st km hst
  obtain ⟨h1, h2, h3, _, _, _⟩ := kingScanStep_frame r c _ st km
  exact ⟨h1.trans hst.1, h2.trans hst.2.1, h3.trans hst.2.2⟩

theorem moveFunction_frame (s : GameState) (piece : Char) (r c : Int) (ms : List Move) :
    (moveFunction s piece r c ms).1.board = s.board ∧
    (moveFunction s piece r c ms).1.whiteToMove = s.whiteToMove ∧
    (moveFunction s piece r c ms).1.checks = s.checks := by
  unfold moveFunction
  split
  · exact ⟨rfl, rfl, rfl⟩
  · split
    · exact ⟨rfl, rfl, rfl⟩
    · split
      · exact ⟨rfl, rfl, rfl⟩
      · split
        · exact ⟨rfl, rfl, rfl⟩
        · split
          · exact ⟨rfl, rfl, rfl⟩
          · split
            · exact getKingMoves_frame s r c ms
            · exact ⟨rfl, rfl, rfl⟩

theorem squareScanStep_frame (r c : Int) (st : GameState × List Move) :
    (squareScanStep r c st).1.board = st.1.board ∧
    (squareScanStep r c st).1.whiteToMove = st.1.whiteToMove ∧
    (squareScanStep r c st).1.checks = st.1.checks := by
  unfold squareScanStep
  dsimp only
  split
  · exact moveFunction_frame st.1 _ r c st.2
  · exact ⟨rfl, rfl, rfl⟩

theorem getAllPossibleMoves_frame (s : GameState) :
    (getAllPossibleMoves s).1.board = s.board ∧
    (getAllPossibleMoves s).1.whiteToMove = s.whiteToMove ∧
    (getAllPossibleMoves s).1.checks = s.checks := by
  unfold getAllPossibleMoves
  refine foldl_preserve
    (fun st : GameState × List Move =>
      st.1.board = s.board ∧ st.1.whiteToMove = s.whiteToMove ∧ st.1.checks = s.checks)
    _ (List.range s.board.length) ((s, []) : GameState × List Move) ⟨rfl, rfl, rfl⟩ ?_
  intro st r hst
  refine foldl_preserve
    (fun st2 : GameState × List Move =>
      st2.1.board = s.board ∧ st2.1.whiteToMove = s.whiteToMove ∧ st2.1.checks = s.checks)
    _ (List.range (pyGetD st.1.board (r : Int) []).length) st hst ?_
  intro st2 c hst2
  obtain ⟨h1, h2, h3⟩ := squareScanStep_frame (r : Int) (c : Int) st2
  exact ⟨h1.trans hst2.1, h2.trans hst2.2.1, h3.trans hst2.2.2⟩

/-- Removing the first moveID-equal element shifts every position at or
beyond a known occurrence down by one. -/
theorem moveRemoveFirst_get? :
    ∀ (ms : List Move) (m0 : Move) (n : Nat), ms.get? n = some m0 →
      ∀ k : Nat, n ≤ k → (moveRemoveFirst ms m0).get? k = ms.get? (k + 1)
  | [], _, n, hn, _, _ => by simp at hn
  | x :: xs, m0, n, hn, k, hk => by
    unfold moveRemoveFirst
    split
    · rfl
    · cases n with
      | zero =>
        simp only [List.get?_cons_zero, Option.some.injEq] at hn
        subst hn
        exact absurd rfl (by assumption)
      | succ n' =>
        cases k with
        | zero => omega
        | succ k' =>
          exact moveRemoveFirst_get? xs m0 n' hn k' (Nat.le_of_succ_le_succ hk)

/-- Soundness of the backwards removal loop: every surviving move either
moves the king or lands on a valid square.  The countdown invariant is that
all positions at or beyond the current index already satisfy the predicate. -/
theorem checkFilterAux_sound (valid : List (Int × Int)) :
    ∀ (n : Nat) (ms : List Move),
      (∀ (k : Nat) (m' : Move), n ≤ k → ms.get? k = some m' →
        pyStrGet m'.pieceMoved 1 = 'K' ∨ (m'.endRow, m'.endCol) ∈ valid) →
      ∀ m ∈ checkFilterAux valid n ms,
        pyStrGet m.pieceMoved 1 = 'K' ∨ (m.endRow, m.endCol) ∈ valid
  | 0, ms, h, m, hm => by
    rcases List.get?_of_mem hm with ⟨k, hk⟩
    exact h k m (Nat.zero_le k) hk
  | n + 1, ms, h, m, hm => by
    rw [checkFilterAux] at hm
    revert hm
    cases hg : ms.get? n with
    | none =>
      intro hm
      refine checkFilterAux_sound valid n ms ?_ m hm
      intro k m' hk hget
      rcases eq_or_lt_of_le hk with rfl | hlt
      · rw [hget] at hg
        exact absurd hg (by simp)
      · exact h k m' hlt hget
    | some m0 =>
      dsimp only
      split
      · split
        · intro hm
          refine checkFilterAux_sound valid n _ ?_ m hm
          intro k m' hk hget
          rw [moveRemoveFirst_get? ms m0 n hg k hk] at hget
          exact h (k + 1) m' (Nat.succ_le_succ hk) hget
        · intro hm
          refine checkFilterAux_sound valid n ms ?_ m hm
          intro k m' hk hget
          rcases eq_or_lt_of_le hk with rfl | hlt
          · rw [hget, Option.some.injEq] at hg
            subst hg
            right
            exact not_not.1 (by assumption)
          · exact h k m' hlt hget
      · intro hm
        refine checkFilterAux_sound valid n ms ?_ m hm
        intro k m' hk hget
        rcases eq_or_lt_of_le hk with rfl | hlt
        · rw [hget, Option.some.injEq] at hg
          subst hg
          left
          exact not_not.1 (by assumption)
        · exact h k m' hlt hget

/-- Every entry the ray scan appends lies on the scanned ray, at a step
count in [1,7], and carries the direction; the piece on the entry's square
qualified, hence is not a knight. -/
theorem rayScanAux_checks_mem (board : Board) (ac ec : Char) (sr sc : Int)
    (j : Nat) (d0 d1 : Int) :
    ∀ (fuel i : Nat) (pp : Option Entry) (b : Bool) (cs : List Entry),
      1 ≤ i → fuel + i ≤ 8 →
      ∀ e ∈ (rayScanAux board ac ec sr sc j d0 d1 fuel i pp b cs).2,
        e ∈ cs ∨
        ∃ k : Nat, 1 ≤ k ∧ k ≤ 7 ∧
          e = (sr + d0 * k, sc + d1 * k, d0, d1) ∧
          pyStrGet (boardGet board (sr + d0 * k) (sc + d1 * k)) 1 ≠ 'N'
  | 0, _, _, _, _, _, _, e, he => Or.inl he
  | fuel + 1, i, pp, b, cs, hi, hfi, e, he => by
    rw [rayScanAux.eq_def] at he
    revert he
    dsimp only
    split
    · split
      · split
        · intro he
          exact rayScanAux_checks_mem board ac ec sr sc j d0 d1 fuel (i + 1) _ b cs
            (Nat.le_succ_of_le hi) (by omega) e he
        · exact fun he => Or.inl he
      · split
        · split
          · rename_i hq
            split
            · intro he
              rcases List.mem_append.1 he with h1 | h1
              · exact Or.inl h1
              · right
                refine ⟨i, hi, by omega, List.mem_singleton.1 h1, ?_⟩
                rcases hq with ⟨_, _, ht⟩ | ⟨_, _, ht⟩ | ⟨_, ht, _⟩ | ht | ⟨_, ht⟩ <;>
                  · rw [ht]
                    decide
            · intro he
              exact rayScanAux_checks_mem board ac ec sr sc j d0 d1 fuel (i + 1) _ b cs
                (Nat.le_succ_of_le hi) (by omega) e he
          · exact fun he => Or.inl he
        · intro he
          exact rayScanAux_checks_mem board ac ec sr sc j d0 d1 fuel (i + 1) _ b cs
            (Nat.le_succ_of_le hi) (by omega) e he
    · exact fun he => Or.inl he

/-- Every entry the knight scan appends has a knight on its square. -/
theorem knightScanStep_checks_mem (board : Board) (ec : Char) (sr sc : Int)
    (st : Bool × List Entry) (m : Int × Int) :
    ∀ e ∈ (knightScanStep board ec sr sc st m).2,
      e ∈ st.2 ∨ pyStrGet (boardGet board e.1 e.2.1) 1 = 'N' := by
  unfold knightScanStep
  dsimp only
  split
  · split
    · intro e he
      rcases List.mem_append.1 he with h1 | h1
      · exact Or.inl h1
      · right
        rw [List.mem_singleton.1 h1]
        rename_i hq
        exact hq.2
    · exact fun e he => Or.inl he
  · exact fun e he => Or.inl he

/-- The two scan phases only append sliding-class or knight-class entries. -/
theorem cpc_checks_mem_aux (board : Board) (ac ec : Char) (sr sc : Int) :
    ∀ e ∈ (knightMovesList.foldl (knightScanStep board ec sr sc)
        ((List.range directionsList.length).foldl (rayScanStep board ac ec sr sc)
          (false, ([] : List Entry)))).2,
      (∃ k : Nat, 1 ≤ k ∧ k ≤ 7 ∧
        e = (sr + e.2.2.1 * k, sc + e.2.2.2 * k, e.2.2.1, e.2.2.2) ∧
        pyStrGet (boardGet board e.1 e.2.1) 1 ≠ 'N') ∨
      pyStrGet (boardGet board e.1 e.2.1) 1 = 'N' := by
  refine foldl_preserve
    (fun st : Bool × List Entry => ∀ e ∈ st.2,
      (∃ k : Nat, 1 ≤ k ∧ k ≤ 7 ∧
        e = (sr + e.2.2.1 * k, sc + e.2.2.2 * k, e.2.2.1, e.2.2.2) ∧
        pyStrGet (boardGet board e.1 e.2.1) 1 ≠ 'N') ∨
      pyStrGet (boardGet board e.1 e.2.1) 1 = 'N')
    (knightScanStep board ec sr sc) knightMovesList _
    (foldl_preserve
      (fun st : Bool × List Entry => ∀ e ∈ st.2,
        (∃ k : Nat, 1 ≤ k ∧ k ≤ 7 ∧
          e = (sr + e.2.2.1 * k, sc + e.2.2.2 * k, e.2.2.1, e.2.2.2) ∧
          pyStrGet (boardGet board e.1 e.2.1) 1 ≠ 'N') ∨
        pyStrGet (boardGet board e.1 e.2.1) 1 = 'N')
      (rayScanStep board ac ec sr sc) (List.range directionsList.length) _
      (by intro e he; simp at he) ?_) ?_
  · intro st j hst e he
    unfold rayScanStep at he
    rcases rayScanAux_checks_mem board _ _ _ _ j _ _ 7 1 none st.1 st.2
        (le_refl 1) (by omega) e he with h1 | ⟨k, hk1, hk7, hek, hN⟩
    · exact hst e h1
    · subst hek
      left
      exact ⟨k, hk1, hk7, rfl, hN⟩
  · intro st m hst e he
    rcases knightScanStep_checks_mem board _ _ _ st m e he with h1 | h1
    · exact hst e h1
    · exact Or.inr h1

/-- checksForPinsAndChecks written out as the two folds (definitional). -/
theorem checksForPinsAndChecks_eq (s : GameState) :
    checksForPinsAndChecks s =
      ((knightMovesList.foldl
          (knightScanStep s.board (if s.whiteToMove then 'b' else 'w')
            (if s.whiteToMove then s.whiteKingLocation.1 else s.blackKingLocation.1)
            (if s.whiteToMove then s.whiteKingLocation.2 else s.blackKingLocation.2))
          ((List.range directionsList.length).foldl
            (rayScanStep s.board (if s.whiteToMove then 'w' else 'b')
              (if s.whiteToMove then 'b' else 'w')
              (if s.whiteToMove then s.whiteKingLocation.1 else s.blackKingLocation.1)
              (if s.whiteToMove then s.whiteKingLocation.2 else s.blackKingLocation.2))
            (false, ([] : List Entry)))).1, [],
        (knightMovesList.foldl
          (knightScanStep s.board (if s.whiteToMove then 'b' else 'w')
            (if s.whiteToMove then s.whiteKingLocation.1 else s.blackKingLocation.1)
            (if s.whiteToMove then s.whiteKingLocation.2 else s.blackKingLocation.2))
          ((List.range directionsList.length).foldl
            (rayScanStep s.board (if s.whiteToMove then 'w' else 'b')
              (if s.whiteToMove then 'b' else 'w')
              (if s.whiteToMove then s.whiteKingLocation.1 else s.blackKingLocation.1)
              (if s.whiteToMove then s.whiteKingLocation.2 else s.blackKingLocation.2))
            (false, ([] : List Entry)))).2) := rfl

/-- Every check entry the detector returns is either a sliding-class entry
(its square is the king square plus k times its direction, k in [1,7], and
the piece there is not a knight) or a knight entry (a knight sits on its
square). -/
theorem checksForPinsAndChecks_checks_mem (s : GameState) :
    ∀ e ∈ (checksForPinsAndChecks s).2.2,
      (∃ k : Nat, 1 ≤ k ∧ k ≤ 7 ∧
        e = ((cacheOfSide s).1 + e.2.2.1 * k, (cacheOfSide s).2 + e.2.2.2 * k,
          e.2.2.1, e.2.2.2) ∧
        pyStrGet (boardGet s.board e.1 e.2.1) 1 ≠ 'N') ∨
      pyStrGet (boardGet s.board e.1 e.2.1) 1 = 'N' := by
  rw [checksForPinsAndChecks_eq]
  unfold cacheOfSide
  by_cases hw : s.whiteToMove = true <;>
    simp only [hw, if_true, if_false, Bool.false_eq_true] <;>
    exact cpc_checks_mem_aux s.board _ _ _ _

/-- Every square the valid-squares loop records is on the ray from the king
at a step count in [i,7], and no earlier step of the loop hit the checker's
square (the loop breaks on the checker). -/
theorem validSquaresAux_mem (kr kc d0 d1 cr cc : Int) :
    ∀ (fuel i : Nat) (acc : List (Int × Int)), fuel + i ≤ 8 → 1 ≤ i →
      ∀ v ∈ validSquaresAux kr kc d0 d1 cr cc fuel i acc,
        v ∈ acc ∨
        ∃ t : Nat, i ≤ t ∧ t ≤ 7 ∧ v = (kr + d0 * t, kc + d1 * t) ∧
          ∀ t' : Nat, i ≤ t' → t' < t → ¬(kr + d0 * t' = cr ∧ kc + d1 * t' = cc)
  | 0, _, _, _, _, v, hv => Or.inl hv
  | fuel + 1, i, acc, hfi, hi, v, hv => by
    rw [validSquaresAux] at hv
    revert hv
    dsimp only
    split
    · intro hv
      rcases List.mem_append.1 hv with h1 | h1
      · exact Or.inl h1
      · right
        exact ⟨i, le_refl i, by omega, List.mem_singleton.1 h1,
          fun t' h1 h2 => absurd h2 (by omega)⟩
    · rename_i hne
      intro hv
      rcases validSquaresAux_mem kr kc d0 d1 cr cc fuel (i + 1) _ (by omega)
          (Nat.le_succ_of_le hi) v hv with h1 | ⟨t, ht1, ht7, htv, hmiss⟩
      · rcases List.mem_append.1 h1 with h2 | h2
        · exact Or.inl h2
        · right
          exact ⟨i, le_refl i, by omega, List.mem_singleton.1 h2,
            fun t' ha hb => absurd hb (by omega)⟩
      · right
        refine ⟨t, Nat.le_of_succ_le ht1, ht7, htv, ?_⟩
        intro t' ha hb
        rcases eq_or_lt_of_le ha with rfl | hlt
        · exact fun hc => hne hc
        · exact hmiss t' hlt hb

/-- self.checks[0] of the single-check branch of getValidMoves. -/
def headCheck (s : GameState) : Entry := (checksForPinsAndChecks s).2.2.getD 0 (0, 0, 0, 0)

/-- Claim C4.  With exactly one reported check, every surviving non-king
move lands on the attack ray between king and checker (inclusive of the
checker's square, exclusive of anything past it); when the checker is a
knight, the destination is exactly the knight's square. -/
theorem claim_C4 (s : GameState) (h1 : (checksForPinsAndChecks s).2.2.length = 1) :
    ∀ m ∈ (getValidMoves s).2, pyStrGet m.pieceMoved 1 ≠ 'K' →
      (pyStrGet (boardGet s.board (headCheck s).1 (headCheck s).2.1) 1 = 'N' →
        (m.endRow, m.endCol) = ((headCheck s).1, (headCheck s).2.1)) ∧
      (pyStrGet (boardGet s.board (headCheck s).1 (headCheck s).2.1) 1 ≠ 'N' →
        ∃ t k : Nat, 1 ≤ t ∧ t ≤ k ∧ k ≤ 7 ∧
          (headCheck s).1 = (cacheOfSide s).1 + (headCheck s).2.2.1 * k ∧
          (headCheck s).2.1 = (cacheOfSide s).2 + (headCheck s).2.2.2 * k ∧
          (m.endRow, m.endCol)
            = ((cacheOfSide s).1 + (headCheck s).2.2.1 * t,
              (cacheOfSide s).2 + (headCheck s).2.2.2 * t)) := by
  intro m hm hK
  unfold headCheck
  have hin : (checksForPinsAndChecks s).1 = true := by
    refine (checksForPinsAndChecks_inCheck_iff s).2 ?_
    intro h
    rw [h] at h1
    simp at h1
  unfold getValidMoves at hm
  dsimp only at hm
  rw [if_pos hin, if_pos h1] at hm
  have hsound := checkFilterAux_sound _ _ _
    (fun k m' hk hget => by
      rw [List.get?_eq_none.2 hk] at hget
      exact absurd hget (by simp)) m hm
  rcases hsound with hking | hdest
  · exact absurd hking hK
  have hb : (getAllPossibleMoves
      { s with
          inCheck := (checksForPinsAndChecks s).1
          pins := (checksForPinsAndChecks s).2.1
          checks := (checksForPinsAndChecks s).2.2 }).1.board = s.board :=
    (getAllPossibleMoves_frame _).1
  have hc : (getAllPossibleMoves
      { s with
          inCheck := (checksForPinsAndChecks s).1
          pins := (checksForPinsAndChecks s).2.1
          checks := (checksForPinsAndChecks s).2.2 }).1.checks
      = (checksForPinsAndChecks s).2.2 :=
    (getAllPossibleMoves_frame _).2.2
  rw [hb, hc] at hdest
  have hmem : headCheck s ∈ (checksForPinsAndChecks s).2.2 := by
    unfold headCheck
    rcases hL : (checksForPinsAndChecks s).2.2 with _ | ⟨e, tl⟩
    · rw [hL] at h1
      simp at h1
    · simp
  refine ⟨?_, ?_⟩
  · intro hN
    rw [if_pos hN] at hdest
    exact List.mem_singleton.1 hdest
  · intro hN
    rw [if_neg hN] at hdest
    rcases checksForPinsAndChecks_checks_mem s _ hmem with ⟨k, hk1, hk7, hek, _⟩ | hNk
    · have he1 : (headCheck s).1 = (cacheOfSide s).1 + (headCheck s).2.2.1 * k := by
        rw [hek]
      have he2 : (headCheck s).2.1 = (cacheOfSide s).2 + (headCheck s).2.2.2 * k := by
        rw [hek]
      unfold cacheOfSide at he1 he2 ⊢
      by_cases hw : s.whiteToMove = true
      · simp only [hw, if_true] at he1 he2 hdest ⊢
        rcases validSquaresAux_mem _ _ _ _ _ _ 7 1 [] (by omega) (le_refl 1) _ hdest with
          h0 | ⟨t, ht1, ht7, htv, hmiss⟩
        · simp at h0
        · have htk : t ≤ k := by
            by_contra hgt
            push_neg at hgt
            exact hmiss k hk1 hgt ⟨he1.symm, he2.symm⟩
          exact ⟨t, k, ht1, htk, hk7, he1, he2, htv⟩
      · simp only [hw, if_false, Bool.false_eq_true] at he1 he2 hdest ⊢
        rcases validSquaresAux_mem _ _ _ _ _ _ 7 1 [] (by omega) (le_refl 1) _ hdest with
          h0 | ⟨t, ht1, ht7, htv, hmiss⟩
        · simp at h0
        · have htk : t ≤ k := by
            by_contra hgt
            push_neg at hgt
            exact hmiss k hk1 hgt ⟨he1.symm, he2.symm⟩
          exact ⟨t, k, ht1, htk, hk7, he1, he2, htv⟩
    · exact absurd hNk hN

/-- A position with white to move, a single black rook check on (4,4) down
the 4-file against the white king on (7,4), and a white rook on (5,0) that
can interpose on (5,4). -/
def singleCheckState : GameState :=
  { board :=
      [ ["bK", "--", "--", "--", "--", "--", "--", "--"],
        ["--", "--", "--", "--", "--", "--", "--", "--"],
        ["--", "--", "--", "--", "--", "--", "--", "--"],
        ["--", "--", "--", "--", "--", "--", "--", "--"],
        ["--", "--", "--", "--", "bR", "--", "--", "--"],
        ["wR", "--", "--", "--", "--", "--", "--", "--"],
        ["--", "--", "--", "--", "--", "--", "--", "--"],
        ["--", "--", "--", "--", "wK", "--", "--", "--"] ]
    whiteToMove := true
    moveLog := []
    whiteKingLocation := (7, 4)
    blackKingLocation := (0, 0)
    inCheck := false
    pins := []
    checks := [] }

/-- Witness for claim C4: the single-check position has one check, the
interposition (5,0)->(5,4) survives the filter, and the theorem applies. -/
theorem claim_C4_witness :
    (checksForPinsAndChecks singleCheckState).2.2.length = 1 ∧
    mkMove (5, 0) (5, 4) singleCheckState.board ∈ (getValidMoves singleCheckState).2 ∧
    ∀ m ∈ (getValidMoves singleCheckState).2, pyStrGet m.pieceMoved 1 ≠ 'K' →
      (pyStrGet (boardGet singleCheckState.board (headCheck singleCheckState).1
          (headCheck singleCheckState).2.1) 1 = 'N' →
        (m.endRow, m.endCol)
          = ((headCheck singleCheckState).1, (headCheck singleCheckState).2.1)) ∧
      (pyStrGet (boardGet singleCheckState.board (headCheck singleCheckState).1
          (headCheck singleCheckState).2.1) 1 ≠ 'N' →
        ∃ t k : Nat, 1 ≤ t ∧ t ≤ k ∧ k ≤ 7 ∧
          (headCheck singleCheckState).1
            = (cacheOfSide singleCheckState).1 + (headCheck singleCheckState).2.2.1 * k ∧
          (headCheck singleCheckState).2.1
            = (cacheOfSide singleCheckState).2 + (headCheck singleCheckState).2.2.2 * k ∧
          (m.endRow, m.endCol)
            = ((cacheOfSide singleCheckState).1 + (headCheck singleCheckState).2.2.1 * t,
              (cacheOfSide singleCheckState).2 + (headCheck singleCheckState).2.2.2 * t)) :=
  ⟨by decide, by decide, claim_C4 singleCheckState (by decide)⟩

/-- A move whose piece fields were read off board b at its coordinates. -/
def FromBoard (b : Board) (m : Move) : Prop :=
  m.pieceMoved = boardGet b m.startRow m.startCol ∧
  m.pieceCaptured = boardGet b m.endRow m.endCol

theorem mkMove_fromBoard (b : Board) (p q : Int × Int) : FromBoard b (mkMove p q b) :=
  ⟨rfl, rfl⟩

/-- ms' extends ms only with moves constructed from board b. -/
def ExtOnly (b : Board) (ms ms' : List Move) : Prop :=
  ∀ m ∈ ms', m ∈ ms ∨ FromBoard b m

theorem extOnly_refl (b : Board) (ms : List Move) : ExtOnly b ms ms :=
  fun _ hm => Or.inl hm

theorem extOnly_append (b : Board) (ms msA : List Move) (p q : Int × Int)
    (h : ExtOnly b ms msA) : ExtOnly b ms (msA ++ [mkMove p q b]) := by
  intro m hm
  rcases List.mem_append.1 hm with h1 | h1
  · exact h m h1
  · rw [List.mem_singleton.1 h1]
    exact Or.inr (mkMove_fromBoard b p q)

theorem extOnly_ite (b : Board) (ms : List Move) (c : Prop) [Decidable c]
    (msA msB : List Move) (hA : ExtOnly b ms msA) (hB : ExtOnly b ms msB) :
    ExtOnly b ms (if c then msA else msB) := by
  split
  · exact hA
  · exact hB

theorem extOnly_trans {b : Board} {ms1 ms2 ms3 : List Move}
    (h1 : ExtOnly b ms1 ms2) (h2 : ExtOnly b ms2 ms3) : ExtOnly b ms1 ms3 := by
  intro m hm
  rcases h2 m hm with h | h
  · exact h1 m h
  · exact Or.inr h

theorem getPawnMoves_extOnly (s : GameState) (r c : Int) (ms : List Move) :
    ExtOnly s.board ms (getPawnMoves s r c ms).2 := by
  unfold getPawnMoves
  dsimp only
  repeat' first
    | apply extOnly_ite
    | apply extOnly_append
    | exact extOnly_refl _ _

theorem slideRayAux_extOnly (b : Board) (r c : Int) (pp : Bool)
    (pd : Option (Int × Int)) (ec : Char) (d0 d1 : Int) :
    ∀ (fuel i : Nat) (ms : List Move),
      ExtOnly b ms (slideRayAux b r c pp pd ec d0 d1 fuel i ms)
  | 0, _, ms => extOnly_refl _ _
  | fuel + 1, i, ms => by
    rw [slideRayAux.eq_def]
    dsimp only
    split
    · split
      · split
        · exact extOnly_trans (extOnly_append b ms ms _ _ (extOnly_refl _ _))
            (slideRayAux_extOnly b r c pp pd ec d0 d1 fuel (i + 1) _)
        · split
          · exact extOnly_append b ms ms _ _ (extOnly_refl _ _)
          · exact extOnly_refl _ _
      · exact extOnly_refl _ _
    · exact extOnly_refl _ _

theorem getRookMoves_extOnly (s : GameState) (r c : Int) (ms : List Move) :
    ExtOnly s.board ms (getRookMoves s r c ms).2 := by
  unfold getRookMoves
  dsimp only [List.foldl]
  exact extOnly_trans (extOnly_trans (extOnly_trans
    (slideRayAux_extOnly s.board r c _ _ _ _ _ 7 1 ms)
    (slideRayAux_extOnly s.board r c _ _ _ _ _ 7 1 _))
    (slideRayAux_extOnly s.board r c _ _ _ _ _ 7 1 _))
    (slideRayAux_extOnly s.board r c _ _ _ _ _ 7 1 _)

theorem getBishopMoves_extOnly (s : GameState) (r c : Int) (ms : List Move) :
    ExtOnly s.board ms (getBishopMoves s r c ms).2 := by
  unfold getBishopMoves
  dsimp only [List.foldl]
  exact extOnly_trans (extOnly_trans (extOnly_trans
    (slideRayAux_extOnly s.board r c _ _ _ _ _ 7 1 ms)
    (slideRayAux_extOnly s.board r c _ _ _ _ _ 7 1 _))
    (slideRayAux_extOnly s.board r c _ _ _ _ _ 7 1 _))
    (slideRayAux_extOnly s.board r c _ _ _ _ _ 7 1 _)

theorem getKnightMoves_extOnly (s : GameState) (r c : Int) (ms : List Move) :
    ExtOnly s.board ms (getKnightMoves s r c ms).2 := by
  unfold getKnightMoves
  dsimp only
  refine foldl_preserve (fun acc : List Move => ExtOnly s.board ms acc) _ knightMovesList ms
    (extOnly_refl _ _) ?_
  intro acc km hacc
  dsimp only
  repeat' first
    | apply extOnly_ite
    | apply extOnly_append
    | exact hacc

theorem getQueenMoves_extOnly (s : GameState) (r c : Int) (ms : List Move) :
    ExtOnly s.board ms (getQueenMoves s r c ms).2 :=
  extOnly_trans (getRookMoves_extOnly s r c ms)
    (getBishopMoves_extOnly (getRookMoves s r c ms).1 r c (getRookMoves s r c ms).2)

theorem getKingMoves_extOnly (s : GameState) (r c : Int) (ms : List Move) :
    ExtOnly s.board ms (getKingMoves s r c ms).2 := by
  unfold getKingMoves
  refine (foldl_preserve
    (fun st : GameState × List Move => st.1.board = s.board ∧ ExtOnly s.board ms st.2)
    (kingScanStep r c (if s.whiteToMove then 'w' else 'b')) kingMovesList (s, ms)
    ⟨rfl, extOnly_refl _ _⟩ ?_).2
  intro st km hst
  refine ⟨(kingScanStep_board _ _ _ st km).trans hst.1, ?_⟩
  rcases kingScanStep_moves r c _ st km with he | ⟨er, ec, he⟩
  · rw [he]
    exact hst.2
  · rw [he, hst.1]
    exact extOnly_append s.board ms st.2 _ _ hst.2

theorem moveFunction_extOnly (x : GameState) (piece : Char) (r c : Int) (ms : List Move) :
    ExtOnly x.board ms (moveFunction x piece r c ms).2 := by
  unfold moveFunction
  split
  · exact getPawnMoves_extOnly x r c ms
  · split
    · exact getRookMoves_extOnly x r c ms
    · split
      · exact getKnightMoves_extOnly x r c ms
      · split
        · exact getBishopMoves_extOnly x r c ms
        · split
          · exact getQueenMoves_extOnly x r c ms
          · split
            · exact getKingMoves_extOnly x r c ms
            · exact extOnly_refl _ _

theorem squareScanStep_extOnly (r c : Int) (st : GameState × List Move) :
    ExtOnly st.1.board st.2 (squareScanStep r c st).2 := by
  unfold squareScanStep
  dsimp only
  split
  · exact moveFunction_extOnly st.1 _ r c st.2
  · exact extOnly_refl _ _

theorem getAllPossibleMoves_fromBoard (s : GameState) :
    ∀ m ∈ (getAllPossibleMoves s).2, FromBoard s.board m := by
  unfold getAllPossibleMoves
  refine (foldl_preserve
    (fun st : GameState × List Move =>
      st.1.board = s.board ∧ ∀ m ∈ st.2, FromBoard s.board m)
    _ (List.range s.board.length) ((s, []) : GameState × List Move)
    ⟨rfl, by intro m hm; simp at hm⟩ ?_).2
  intro st r hst
  refine foldl_preserve
    (fun st2 : GameState × List Move =>
      st2.1.board = s.board ∧ ∀ m ∈ st2.2, FromBoard s.board m)
    _ (List.range (pyGetD st.1.board (r : Int) []).length) st hst ?_
  intro st2 cc hst2
  refine ⟨(squareScanStep_frame _ _ _).1.trans hst2.1, ?_⟩
  intro m hm
  rcases squareScanStep_extOnly (r : Int) (cc : Int) st2 m hm with h1 | h2
  · exact hst2.2 m h1
  · rw [hst2.1] at h2
    exact h2

theorem moveRemoveFirst_subset : ∀ (ms : List Move) (x : Move), ∀ m ∈ moveRemoveFirst ms x, m ∈ ms
  | [], _, m, hm => absurd hm (by simp [moveRemoveFirst])
  | y :: ys, x, m, hm => by
    unfold moveRemoveFirst at hm
    split at hm
    · exact List.mem_cons_of_mem y hm
    · rcases List.mem_cons.1 hm with h | h
      · rw [h]
        exact List.mem_cons_self _ _
      · exact List.mem_cons_of_mem y (moveRemoveFirst_subset ys x m h)

theorem checkFilterAux_subset (valid : List (Int × Int)) :
    ∀ (n : Nat) (ms : List Move), ∀ m ∈ checkFilterAux valid n ms, m ∈ ms
  | 0, _, _, hm => hm
  | n + 1, ms, m, hm => by
    rw [checkFilterAux] at hm
    revert hm
    cases hg : ms.get? n with
    | none => exact fun hm => checkFilterAux_subset valid n ms m hm
    | some m0 =>
      dsimp only
      split
      · split
        · intro hm
          exact moveRemoveFirst_subset ms _ m (checkFilterAux_subset valid n _ m hm)
        · exact fun hm => checkFilterAux_subset valid n ms m hm
      · exact fun hm => checkFilterAux_subset valid n ms m hm

/-- Every move getValidMoves returns carries piece fields read off the
current board at its own coordinates. -/
theorem getValidMoves_fromBoard (s : GameState) :
    ∀ m ∈ (getValidMoves s).2, FromBoard s.board m := by
  unfold getValidMoves
  dsimp only
  split
  · split
    · intro m hm
      dsimp only at hm
      exact getAllPossibleMoves_fromBoard
        { s with
            inCheck := (checksForPinsAndChecks s).1
            pins := (checksForPinsAndChecks s).2.1
            checks := (checksForPinsAndChecks s).2.2 } m
        (checkFilterAux_subset _ _ _ m hm)
    · intro m hm
      rcases getKingMoves_extOnly _ _ _ _ m hm with h1 | h2
      · simp at h1
      · exact h2
  · intro m hm
    exact getAllPossibleMoves_fromBoard
      { s with
          inCheck := (checksForPinsAndChecks s).1
          pins := (checksForPinsAndChecks s).2.1
          checks := (checksForPinsAndChecks s).2.2 } m hm

theorem pySet_none {l : List α} {i : Int} (h : pyIdx? l.length i = none) (a : α) :
    pySet l i a = l := by
  unfold pySet
  rw [h]

theorem pySet_some {l : List α} {i : Int} {n : Nat} (h : pyIdx? l.length i = some n) (a : α) :
    pySet l i a = l.set n a := by
  unfold pySet
  rw [h]

theorem pyGetD_some {l : List α} {i : Int} {n : Nat} (h : pyIdx? l.length i = some n) (d : α) :
    pyGetD l i d = l.getD n d := by
  unfold pyGetD pyGet?
  rw [h, List.getD_eq_get?]
  rfl

theorem pyIdx?_lt {len : Nat} {i : Int} {n : Nat} (h : pyIdx? len i = some n) : n < len := by
  unfold pyIdx? at h
  split at h
  · split at h
    · rw [Option.some.injEq] at h
      omega
    · exact absurd h (by simp)
  · split at h
    · rw [Option.some.injEq] at h
      omega
    · exact absurd h (by simp)

theorem set_getSelf : ∀ (l : List α) (n : Nat) (d : α), n < l.length →
    l.set n ((l.get? n).getD d) = l
  | [], _, _, h => by simp at h
  | _ :: _, 0, _, _ => rfl
  | x :: xs, n + 1, d, h => by
    show x :: xs.set n ((xs.get? n).getD d) = x :: xs
    rw [set_getSelf xs n d (by simpa using h)]

theorem pySet_pyGetD_self (l : List α) (i : Int) (d : α) :
    pySet l i (pyGetD l i d) = l := by
  cases h : pyIdx? l.length i with
  | none => exact pySet_none h _
  | some n =>
    rw [pySet_some h, pyGetD_some h, List.getD_eq_get?]
    exact set_getSelf l n d (pyIdx?_lt h)

theorem pySet_collapse (l : List α) (i : Int) (a b : α) :
    pySet (pySet l i a) i b = pySet l i b := by
  cases h : pyIdx? l.length i with
  | none => rw [pySet_none h a, pySet_none h b]
  | some n =>
    rw [pySet_some h a]
    have h2 : pyIdx? (l.set n a).length i = some n := by
      rw [List.length_set]
      exact h
    rw [pySet_some h2 b, pySet_some h b, List.set_set]

/-- The first-read-then-overwrite round trip on one Python list. -/
theorem pyRoundtrip (l : List α) (i j : Int) (x d : α) :
    pySet (pySet (pySet (pySet l i x) j (pyGetD l i d)) i (pyGetD l i d)) j (pyGetD l j d)
      = l := by
  cases hi : pyIdx? l.length i with
  | none =>
    rw [pySet_none hi]
    cases hj : pyIdx? l.length j with
    | none => rw [pySet_none hj, pySet_none hi, pySet_none hj]
    | some nj =>
      rw [pySet_some hj]
      have hi2 : pyIdx? (l.set nj (pyGetD l i d)).length i = none := by
        rw [List.length_set]
        exact hi
      rw [pySet_none hi2]
      have hj2 : pyIdx? (l.set nj (pyGetD l i d)).length j = some nj := by
        rw [List.length_set]
        exact hj
      rw [pySet_some hj2, List.set_set, pyGetD_some hj, List.getD_eq_get?]
      exact set_getSelf l nj d (pyIdx?_lt hj)
  | some ni =>
    rw [pySet_some hi]
    cases hj : pyIdx? l.length j with
    | none =>
      have hj2 : pyIdx? (l.set ni x).length j = none := by
        rw [List.length_set]
        exact hj
      rw [pySet_none hj2]
      have hi2 : pyIdx? (l.set ni x).length i = some ni := by
        rw [List.length_set]
        exact hi
      rw [pySet_some hi2, List.set_set]
      have hj3 : pyIdx? (l.set ni (pyGetD l i d)).length j = none := by
        rw [List.length_set]
        exact hj
      rw [pySet_none hj3, pyGetD_some hi, List.getD_eq_get?]
      exact set_getSelf l ni d (pyIdx?_lt hi)
    | some nj =>
      have hj2 : pyIdx? (l.set ni x).length j = some nj := by
        rw [List.length_set]
        exact hj
      rw [pySet_some hj2]
      have hi2 : pyIdx? ((l.set ni x).set nj (pyGetD l i d)).length i = some ni := by
        rw [List.length_set, List.length_set]
        exact hi
      rw [pySet_some hi2]
      have hj3 :
          pyIdx? (((l.set ni x).set nj (pyGetD l i d)).set ni (pyGetD l i d)).length j
            = some nj := by
        rw [List.length_set, List.length_set, List.length_set]
        exact hj
      rw [pySet_some hj3]
      by_cases hij : ni = nj
      · subst hij
        rw [List.set_set, List.set_set, List.set_set, pyGetD_some hj, List.getD_eq_get?]
        exact set_getSelf l ni d (pyIdx?_lt hj)
      · rw [List.set_comm _ _ _ hij, List.set_set,
          List.set_comm _ _ _ (Ne.symm hij), List.set_set,
          pyGetD_some hi, List.getD_eq_get?, set_getSelf l ni d (pyIdx?_lt hi),
          pyGetD_some hj, List.getD_eq_get?]
        exact set_getSelf l nj d (pyIdx?_lt hj)

theorem boardSet_none {b : Board} {r : Int} (h : pyIdx? b.length r = none) (c : Int)
    (v : Cell) : boardSet b r c v = b := by
  unfold boardSet
  rw [h]

theorem boardSet_some {b : Board} {r : Int} {n : Nat} (h : pyIdx? b.length r = some n)
    (c : Int) (v : Cell) :
    boardSet b r c v = b.set n (pySet ((b.get? n).getD []) c v) := by
  unfold boardSet
  rw [h]

theorem length_boardSet (b : Board) (r c : Int) (v : Cell) :
    (boardSet b r c v).length = b.length := by
  unfold boardSet
  split
  · rw [List.length_set]
  · rfl

theorem boardGet_some {b : Board} {r : Int} {n : Nat} (h : pyIdx? b.length r = some n)
    (c : Int) : boardGet b r c = pyGetD ((b.get? n).getD []) c emptyCell := by
  unfold boardGet
  have : pyGetD b r [] = (b.get? n).getD [] := by
    unfold pyGetD pyGet?
    rw [h]
    rfl
  rw [this]

theorem boardSet_collapse (b : Board) (r c : Int) (v w : Cell) :
    boardSet (boardSet b r c v) r c w = boardSet b r c w := by
  cases h : pyIdx? b.length r with
  | none => rw [boardSet_none h c v, boardSet_none h c w]
  | some n =>
    rw [boardSet_some h c v]
    have h2 : pyIdx? (b.set n (pySet ((b.get? n).getD []) c v)).length r = some n := by
      rw [List.length_set]
      exact h
    rw [boardSet_some h2 c w, boardSet_some h c w, List.set_set,
      List.get?_set_eq_of_lt _ (pyIdx?_lt h), Option.getD_some, pySet_collapse]

theorem boardSet_comm {b : Board} {sr er : Int} {n1 n2 : Nat}
    (h1 : pyIdx? b.length sr = some n1) (h2 : pyIdx? b.length er = some n2)
    (hne : n1 ≠ n2) (c1 c2 : Int) (v1 v2 : Cell) :
    boardSet (boardSet b sr c1 v1) er c2 v2 = boardSet (boardSet b er c2 v2) sr c1 v1 := by
  rw [boardSet_some h1 c1 v1, boardSet_some h2 c2 v2]
  have e2 : pyIdx? (b.set n1 (pySet ((b.get? n1).getD []) c1 v1)).length er = some n2 := by
    rw [List.length_set]
    exact h2
  have e1 : pyIdx? (b.set n2 (pySet ((b.get? n2).getD []) c2 v2)).length sr = some n1 := by
    rw [List.length_set]
    exact h1
  rw [boardSet_some e2 c2 v2, boardSet_some e1 c1 v1,
    List.get?_set_ne _ _ hne, List.get?_set_ne _ _ (Ne.symm hne)]
  exact List.set_comm _ _ _ hne

theorem boardSet_boardGet_self (b : Board) (r c : Int) :
    boardSet b r c (boardGet b r c) = b := by
  cases h : pyIdx? b.length r with
  | none => exact boardSet_none h _ _
  | some n =>
    rw [boardSet_some h, boardGet_some h, pySet_pyGetD_self]
    exact set_getSelf b n [] (pyIdx?_lt h)

/-- The board round trip of makeMove followed by undoMove, for piece values
read off the original board. -/
theorem board_roundtrip (b : Board) (sr sc er ec : Int) :
    boardSet (boardSet (boardSet (boardSet b sr sc emptyCell) er ec (boardGet b sr sc))
      sr sc (boardGet b sr sc)) er ec (boardGet b er ec) = b := by
  cases h1 : pyIdx? b.length sr with
  | none =>
    rw [boardSet_none h1]
    have h1b : pyIdx? (boardSet b er ec (boardGet b sr sc)).length sr = none := by
      rw [length_boardSet]
      exact h1
    rw [boardSet_none h1b, boardSet_collapse]
    exact boardSet_boardGet_self b er ec
  | some n1 =>
    cases h2 : pyIdx? b.length er with
    | none =>
      have h2b : pyIdx? (boardSet b sr sc emptyCell).length er = none := by
        rw [length_boardSet]
        exact h2
      rw [boardSet_none h2b, boardSet_collapse, boardSet_boardGet_self]
      exact boardSet_none h2 _ _
    | some n2 =>
      by_cases hij : n1 = n2
      · subst hij
        rw [boardGet_some h1 sc, boardGet_some h2 ec, boardSet_some h1]
        have e2 : pyIdx?
            (b.set n1 (pySet ((b.get? n1).getD []) sc emptyCell)).length er = some n1 := by
          rw [List.length_set]
          exact h2
        rw [boardSet_some e2, List.get?_set_eq_of_lt _ (pyIdx?_lt h1), Option.getD_some,
          List.set_set]
        have e3 : pyIdx?
            (b.set n1 (pySet (pySet ((b.get? n1).getD []) sc emptyCell) ec
              (pyGetD ((b.get? n1).getD []) sc emptyCell))).length sr = some n1 := by
          rw [List.length_set]
          exact h1
        rw [boardSet_some e3, List.get?_set_eq_of_lt _ (pyIdx?_lt h1), Option.getD_some,
          List.set_set]
        have e4 : pyIdx?
            (b.set n1 (pySet (pySet (pySet ((b.get? n1).getD []) sc emptyCell) ec
              (pyGetD ((b.get? n1).getD []) sc emptyCell)) sc
              (pyGetD ((b.get? n1).getD []) sc emptyCell))).length er = some n1 := by
          rw [List.length_set]
          exact h2
        rw [boardSet_some e4, List.get?_set_eq_of_lt _ (pyIdx?_lt h1), Option.getD_some,
          List.set_set, pyRoundtrip]
        exact set_getSelf b n1 [] (pyIdx?_lt h1)
      · rw [boardSet_comm h1 h2 hij, boardSet_collapse,
          boardSet_comm h2 h1 (Ne.symm hij), boardSet_collapse, boardSet_boardGet_self]
        exact boardSet_boardGet_self b er ec

/-- makeMove written out field by field. -/
theorem makeMove_eq (s : GameState) (m : Move) :
    makeMove s m =
      { board := boardSet (boardSet s.board m.startRow m.startCol emptyCell)
          m.endRow m.endCol m.pieceMoved
        whiteToMove := !s.whiteToMove
        moveLog := s.moveLog ++ [m]
        whiteKingLocation :=
          if m.pieceMoved = whiteKingPiece then (m.endRow, m.endCol)
          else s.whiteKingLocation
        blackKingLocation :=
          if m.pieceMoved = whiteKingPiece then s.blackKingLocation
          else if m.pieceMoved = blackKingPiece then (m.endRow, m.endCol)
          else s.blackKingLocation
        inCheck := s.inCheck
        pins := s.pins
        checks := s.checks } := by
  unfold makeMove
  split
  · rfl
  · split
    · rfl
    · rfl

/-- Claim C5.  For a state whose king caches satisfy the documented cache
invariant (a king move starts at the cached square of its side), applying a
move from getValidMoves and then undoing it restores the board, the turn
flag, both king caches, and the move-log length. -/
theorem claim_C5 (s : GameState) (m : Move)
    (hm : m ∈ (getValidMoves s).2)
    (hwk : m.pieceMoved = whiteKingPiece → s.whiteKingLocation = (m.startRow, m.startCol))
    (hbk : m.pieceMoved = blackKingPiece → s.blackKingLocation = (m.startRow, m.startCol)) :
    (undoMove (makeMove s m)).board = s.board ∧
    (undoMove (makeMove s m)).whiteToMove = s.whiteToMove ∧
    (undoMove (makeMove s m)).whiteKingLocation = s.whiteKingLocation ∧
    (undoMove (makeMove s m)).blackKingLocation = s.blackKingLocation ∧
    (undoMove (makeMove s m)).moveLog.length = s.moveLog.length := by
  obtain ⟨hpm, hpc⟩ := getValidMoves_fromBoard s m hm
  rw [makeMove_eq]
  unfold undoMove
  dsimp only
  rw [List.getLast?_concat]
  dsimp only
  have hb : boardSet (boardSet (boardSet (boardSet s.board m.startRow m.startCol emptyCell)
      m.endRow m.endCol m.pieceMoved) m.startRow m.startCol m.pieceMoved)
      m.endRow m.endCol m.pieceCaptured = s.board := by
    rw [hpm, hpc]
    exact board_roundtrip s.board m.startRow m.startCol m.endRow m.endCol
  refine ⟨?_, ?_, ?_, ?_, ?_⟩
  · split
    · exact hb
    · split
      · exact hb
      · exact hb
  · split
    · exact Bool.not_not _
    · split
      · exact Bool.not_not _
      · exact Bool.not_not _
  · split
    · rename_i h
      exact (hwk h).symm
    · split
      · rfl
      · rfl
  · split
    · rfl
    · split
      · rename_i h h2
        exact (hbk h2).symm
      · rfl
  · have hl : (s.moveLog ++ [m]).dropLast.length = s.moveLog.length := by
      rw [List.dropLast_concat]
    split
    · exact hl
    · split
      · exact hl
      · exact hl

/-- Witness for claim C5: the initial position's pawn double-advance
round-trips back to the initial state's components. -/
theorem claim_C5_witness :
    mkMove (6, 4) (4, 4) initialGameState.board ∈ (getValidMoves initialGameState).2 ∧
    ((undoMove (makeMove initialGameState
        (mkMove (6, 4) (4, 4) initialGameState.board))).board = initialGameState.board ∧
      (undoMove (makeMove initialGameState
        (mkMove (6, 4) (4, 4) initialGameState.board))).whiteToMove
          = initialGameState.whiteToMove ∧
      (undoMove (makeMove initialGameState
        (mkMove (6, 4) (4, 4) initialGameState.board))).whiteKingLocation
          = initialGameState.whiteKingLocation ∧
      (undoMove (makeMove initialGameState
        (mkMove (6, 4) (4, 4) initialGameState.board))).blackKingLocation
          = initialGameState.blackKingLocation ∧
      (undoMove (makeMove initialGameState
        (mkMove (6, 4) (4, 4) initialGameState.board))).moveLog.length
          = initialGameState.moveLog.length) :=
  ⟨by decide, claim_C5 initialGameState (mkMove (6, 4) (4, 4) initialGameState.board)
    (by decide) (by decide) (by decide)⟩

/-- Witness for claim C3: the double-check position has two checks, a
nonempty legal-move list, and the theorem applies to it. -/
theorem claim_C3_witness :
    (boardGet doubleCheckState.board (cacheOfSide doubleCheckState).1
        (cacheOfSide doubleCheckState).2
      = (if doubleCheckState.whiteToMove then whiteKingPiece else blackKingPiece)) ∧
    2 ≤ (checksForPinsAndChecks doubleCheckState).2.2.length ∧
    mkMove (7, 4) (6, 3) doubleCheckState.board ∈ (getValidMoves doubleCheckState).2 ∧
    ∀ m ∈ (getValidMoves doubleCheckState).2,
      m.pieceMoved
        = (if doubleCheckState.whiteToMove then whiteKingPiece else blackKingPiece) :=
  ⟨by decide, by decide, by decide, claim_C3 doubleCheckState (by decide) (by decide)⟩

end ChessEngine
